import Mathlib

/-!
A shallow embedding of `map_unamp.c`.

The C program maps `NUM_PAGES * page_size` bytes of anonymous memory, stamps a
byte pattern at every `STEP_SIZE`-th offset, verifies it, releases one
`STEP_SIZE` chunk in each `PMD_SIZE` unit, and verifies again.

Conventions of the embedding.

* `size_t` is a 64-bit unsigned integer: every `size_t` operation of the source is
  followed by `sz`, reduction modulo `2 ^ 64`.  `int` is 32-bit two's complement.
* A `char` is represented by its 8-bit object representation, a natural number
  below 256; two `char` values compare equal in C exactly when these agree.
* Addresses are offsets from the pointer `ptr` returned by `mmap`.  That pointer
  is page aligned and every offset handed to `munmap` / `msync` is a multiple of
  256 KiB, so the `EINVAL` (misaligned address) outcome of these calls is not
  reachable and is not modelled.
* The kernel is modelled by a `Region`: the byte stored at each offset and
  whether the offset is currently mapped.  `munmap` and `msync` follow their
  POSIX descriptions (see the definitions).
* Loops whose counter is a wrapping `size_t` need not terminate, so they take
  a fuel argument; the theorems show that the stated amount of fuel suffices.
-/

namespace MapUnmap

/-! ## Constants (lines 9-11) -/

def PMD_SIZE : Nat := 2048 * 1024

def STEP_SIZE : Nat := 256 * 1024

def NUM_PAGES : Nat := 4

/-! ## Machine integers -/

/-- Number of values of a `size_t`. -/
def SIZE_MOD : Nat := 2 ^ 64

/-- Reduction of a mathematical result to `size_t`. -/
def sz (n : Nat) : Nat := n % SIZE_MOD

/-- Conversion of a `size_t` value to `int` (32-bit two's complement). -/
def size_to_int (n : Nat) : Int :=
  if n % 2 ^ 32 < 2 ^ 31 then ((n % 2 ^ 32 : Nat) : Int) else ((n % 2 ^ 32 : Nat) : Int) - 2 ^ 32

/-- Conversion of an `int` to `size_t`, as done by the usual arithmetic
conversions when an `int` is compared with a `size_t`. -/
def int_to_size (i : Int) : Nat := (i % (2 ^ 64 : Int)).toNat

/-! ## The pattern oracle (lines 69-72) -/

/-- Embedding of `calculate_value`: `(char)((offset / STEP_SIZE) % 256)`. -/
def calculate_value (offset : Nat) : Nat := (offset / STEP_SIZE) % 256

/-! ## The mapped region and the kernel primitives -/

/-- State of the address range starting at `ptr`: contents and mapping status
of every byte offset. -/
@[ext]
structure Region where
  mem : Nat → Nat
  mapped : Nat → Bool

/-- How a function of the program can end. -/
inductive Res (α : Type) where
  | done (a : α)
  | exit_failure
  | segfault
  | out_of_fuel

/-- Store of one `char` through the volatile pointer: `p[offset] = v`. -/
def Region.store (r : Region) (offset v : Nat) : Region :=
  { r with mem := fun a => if a = offset then v % 256 else r.mem a }

/-- Kernel primitive `munmap(ptr + addr, len)`: fails (`none`) with `EINVAL` when `len`
is zero, otherwise unmaps every byte of `[addr, addr + len)`; it is not an
error if part of the range was not mapped.  The Linux-specific `ENOMEM` (the
split would exceed the limit on the number of mappings) is not modelled. -/
def munmap (r : Region) (addr len : Nat) : Option Region :=
  if len = 0 then none
  else some { r with mapped := fun a => if addr ≤ a ∧ a < addr + len then false else r.mapped a }

/-- Whether each of the `n` bytes starting at `addr` is mapped. -/
def all_mapped (r : Region) (addr : Nat) : Nat → Bool
  | 0 => true
  | n + 1 => if r.mapped (addr + n) then all_mapped r addr n else false

/-- Kernel primitive `msync(ptr + addr, len, MS_ASYNC)`: `true` is success (0),
`false` is -1 with `ENOMEM`, returned when the indicated memory or part of it
is not mapped. -/
def msync (r : Region) (addr len : Nat) : Bool := all_mapped r addr len

/-! ## touch_and_verify_memory (lines 108-127) -/

/-- First loop of `touch_and_verify_memory` (lines 114-116). -/
def touch_loop (total_size : Nat) : Nat → Nat → Region → Res Region
  | 0, offset, r => if offset < total_size then .out_of_fuel else .done r
  | fuel + 1, offset, r =>
    if offset < total_size then
      if r.mapped offset then
        touch_loop total_size fuel (sz (offset + STEP_SIZE))
          (r.store offset (calculate_value offset))
      else .segfault
    else .done r

/-- Second loop of `touch_and_verify_memory` (lines 119-124). -/
def verify_loop (total_size : Nat) : Nat → Nat → Region → Res Region
  | 0, offset, r => if offset < total_size then .out_of_fuel else .done r
  | fuel + 1, offset, r =>
    if offset < total_size then
      if r.mapped offset then
        if r.mem offset ≠ calculate_value offset then .exit_failure
        else verify_loop total_size fuel (sz (offset + STEP_SIZE)) r
      else .segfault
    else .done r

/-- Embedding of `touch_and_verify_memory(ptr, page_size)`; `fuel` bounds the
iterations of each loop. -/
def touch_and_verify_memory (fuel : Nat) (r : Region) (page_size : Nat) : Res Region :=
  let total_size := sz (NUM_PAGES * page_size)
  match touch_loop total_size fuel 0 r with
  | .done r1 => verify_loop total_size fuel 0 r1
  | .exit_failure => .exit_failure
  | .segfault => .segfault
  | .out_of_fuel => .out_of_fuel

/-! ## partial_unmap_and_verify (lines 130-161) -/

/-- Result of a completed `partial_unmap_and_verify`: the region, the ranges
`(start, length)` passed to `munmap` in call order, the offsets logged as
"Region already unmapped", and the offsets compared with the oracle. -/
structure Partial where
  region : Region
  released : List (Nat × Nat)
  gone : List Nat
  compared : List Nat

/-- Start of the range released for unit `page` (lines 137-138). -/
def unmap_offset (page : Nat) : Nat :=
  sz (sz (page * PMD_SIZE) + sz (page * STEP_SIZE) % PMD_SIZE)

/-- Release loop (lines 136-146); `bound` is `num_pmd_thps` converted to `size_t`. -/
def unmap_loop (bound : Nat) : Nat → Nat → Region → List (Nat × Nat) →
    Res (Region × List (Nat × Nat))
  | 0, page, r, log => if page < bound then .out_of_fuel else .done (r, log)
  | fuel + 1, page, r, log =>
    if page < bound then
      match munmap r (unmap_offset page) STEP_SIZE with
      | none => .exit_failure
      | some r1 => unmap_loop bound fuel (sz (page + 1)) r1 (log ++ [(unmap_offset page, STEP_SIZE)])
    else .done (r, log)

/-- Verification loop after the releases (lines 149-158). -/
def check_loop (total_size page_size : Nat) (r : Region) : Nat → Nat → List Nat → List Nat →
    Res (List Nat × List Nat)
  | 0, offset, gone, compared =>
    if offset < total_size then .out_of_fuel else .done (gone, compared)
  | fuel + 1, offset, gone, compared =>
    if offset < total_size then
      if msync r offset page_size = false then
        check_loop total_size page_size r fuel (sz (offset + STEP_SIZE)) (gone ++ [offset]) compared
      else if r.mapped offset then
        if r.mem offset ≠ calculate_value offset then .exit_failure
        else check_loop total_size page_size r fuel (sz (offset + STEP_SIZE)) gone
          (compared ++ [offset])
      else .segfault
    else .done (gone, compared)

/-- Value of `num_pmd_thps` (line 133) as used in the comparison of line 136. -/
def num_pmd_thps (page_size : Nat) : Nat :=
  int_to_size (size_to_int (sz (NUM_PAGES * (page_size / PMD_SIZE))))

/-- Embedding of `partial_unmap_and_verify(ptr, page_size)`. -/
def partial_unmap_and_verify (fuel : Nat) (r : Region) (page_size : Nat) : Res Partial :=
  let total_size := sz (NUM_PAGES * page_size)
  match unmap_loop (num_pmd_thps page_size) fuel 0 r [] with
  | .done (r1, released) =>
    match check_loop total_size page_size r1 fuel 0 [] [] with
    | .done (gone, compared) => .done ⟨r1, released, gone, compared⟩
    | .exit_failure => .exit_failure
    | .segfault => .segfault
    | .out_of_fuel => .out_of_fuel
  | .exit_failure => .exit_failure
  | .segfault => .segfault
  | .out_of_fuel => .out_of_fuel

/-! ## The sysfs helpers (lines 74-106) -/

/-- What the run does to the outside world, in order: writes to a
`hugepages-<size>kB/enabled` file, reads of a `hugepages-<size>kB/stats/<counter>`
file, the calls `mmap`, `madvise` and the final `munmap` made by `main`, and
the checkpoint lines `main` prints before each statistics dump. -/
inductive Event where
  | write_to_file (size_kb : Nat) (content : String)
  | read_stat (size_kb : Nat) (counter : String)
  | mmap (len : Nat)
  | madvise (len : Nat)
  | munmap_all (len : Nat)
  | checkpoint (line : String)
  deriving DecidableEq

/-- The array `sizes` of both helpers (lines 77 and 90), in kB. -/
def sizes : List Nat := [32768, 16384, 8192, 4096, 2048]

/-- Embedding of `enable_hugepages_sizes(page_size, enable_str)`: one write per
entry of `sizes` that is `<= page_size`; the result of the write is ignored. -/
def enable_hugepages_sizes (page_size : Nat) (enable_str : String) : List Event :=
  (sizes.filter fun s => decide (s ≤ page_size)).map fun s =>
    Event.write_to_file s enable_str

/-- Embedding of `read_and_dump_stats(page_size)`: for each entry of `sizes` that is
`<= page_size`, a read of `nr_anon` and a read of `anon_fault_alloc`. -/
def read_and_dump_stats (page_size : Nat) : List Event :=
  (sizes.filter fun s => decide (s ≤ page_size)).flatMap fun s =>
    [Event.read_stat s "nr_anon", Event.read_stat s "anon_fault_alloc"]

/-! ## main (lines 163-250) -/

/-- C library `isspace` in the "C" locale. -/
def is_space (c : Char) : Bool :=
  c.toNat = 32 ∨ (9 ≤ c.toNat ∧ c.toNat ≤ 13)

/-- The decimal digits at the head of a string, as numbers. -/
def leading_digits : List Char → List Nat
  | [] => []
  | c :: cs => if 48 ≤ c.toNat ∧ c.toNat ≤ 57 then (c.toNat - 48) :: leading_digits cs else []

/-- Value of a digit sequence, most significant first. -/
def digits_value (ds : List Nat) : Nat := ds.foldl (fun acc d => acc * 10 + d) 0

/-- The text `strtoul` looks at after skipping white space: whether a minus sign
was given, and the digits it converts. -/
def subject (s : String) : Bool × List Nat :=
  match s.toList.dropWhile is_space with
  | '-' :: t => (true, leading_digits t)
  | '+' :: t => (false, leading_digits t)
  | t => (false, leading_digits t)

/-- C library `strtoul(s, NULL, 10)` with a 64-bit `unsigned long`: 0 when there are
no digits to convert, `ULONG_MAX` when the value is out of range, the negated
value (modulo `2 ^ 64`) after a minus sign. -/
def strtoul10 (s : String) : Nat :=
  let v := digits_value (subject s).2
  if SIZE_MOD ≤ v then SIZE_MOD - 1
  else if (subject s).1 then (SIZE_MOD - v) % SIZE_MOD
  else v

/-- The array `allowed_values` of `main` (line 165). -/
def allowed_values : List String := ["always", "madvise", "inherit", "never"]

/-- How the process ends. -/
inductive Status where
  | exited (code : Nat)
  | killed_by_sigsegv
  | out_of_fuel
  deriving DecidableEq

/-- A run of the program: the events in order and how it ended. -/
structure Run where
  trace : List Event
  status : Status

/-- The kernel as `main` meets it: whether `mmap` succeeds, the mapping status of the
addresses that follow the new region, and the fuel given to each loop. -/
structure Env where
  mmap_ok : Bool
  beyond : Nat → Bool
  fuel : Nat

/-- Kernel primitive `mmap(NULL, len, PROT_READ | PROT_WRITE, MAP_PRIVATE | MAP_ANONYMOUS, -1, 0)`:
fails for a zero length or when the kernel refuses, otherwise gives a
zero-filled region of `len` mapped bytes. -/
def mmap (env : Env) (len : Nat) : Option Region :=
  if len = 0 ∨ env.mmap_ok = false then none
  else some ⟨fun _ => 0, fun a => if a < len then true else env.beyond a⟩

/-- Lines 209-249 of `main`: everything after the arguments were accepted. -/
def main_body (env : Env) (page_size_kb : Nat) (enable_str : String) : Run :=
  let page_size := sz (page_size_kb * 1024)
  let len := sz (NUM_PAGES * page_size)
  let t0 := enable_hugepages_sizes page_size_kb enable_str ++ [Event.mmap len]
  match mmap env len with
  | none => ⟨t0, .exited 1⟩
  | some r0 =>
    let t1 := t0 ++ [Event.madvise len, Event.checkpoint "Before Fault......"]
      ++ read_and_dump_stats page_size_kb
    match touch_and_verify_memory env.fuel r0 page_size with
    | .exit_failure => ⟨t1, .exited 1⟩
    | .segfault => ⟨t1, .killed_by_sigsegv⟩
    | .out_of_fuel => ⟨t1, .out_of_fuel⟩
    | .done r1 =>
      let t2 := t1 ++ [Event.checkpoint "After Fault......"] ++ read_and_dump_stats page_size
      match partial_unmap_and_verify env.fuel r1 page_size with
      | .exit_failure => ⟨t2, .exited 1⟩
      | .segfault => ⟨t2, .killed_by_sigsegv⟩
      | .out_of_fuel => ⟨t2, .out_of_fuel⟩
      | .done res =>
        let t3 := t2 ++ [Event.checkpoint "After partial unamp......"]
          ++ read_and_dump_stats page_size ++ [Event.munmap_all len]
        match munmap res.region 0 len with
        | none => ⟨t3, .exited 1⟩
        | some _ =>
          ⟨t3 ++ [Event.checkpoint "After fully unamp......"] ++ read_and_dump_stats page_size,
            .exited 0⟩

/-- Embedding of `main(argc, argv)`, `argv` being the list of the `argc` argument
strings: lines 168-207 check the arguments, `main_body` does the rest. -/
def main (env : Env) (argv : List String) : Run :=
  match argv with
  | [] => ⟨[], .exited 1⟩
  | [_] => ⟨[], .exited 1⟩
  | _ :: arg1 :: rest =>
    let checked : Option String :=
      match rest with
      | [] => some "always"
      | input :: _ =>
        if allowed_values.any (fun v => decide (input = v)) then
          some (String.mk (input.toList.take 19))
        else none
    match checked with
    | none => ⟨[], .exited 1⟩
    | some enable_str =>
      if strtoul10 arg1 = 0 then ⟨[], .exited 1⟩
      else main_body env (strtoul10 arg1) enable_str

/-! ## Specification-side descriptions used in the statements -/

/-- Contents after stamping the oracle at `offset, offset + STEP_SIZE, ...` below
`total_size`: the closed form of what `touch_loop` computes. -/
def stamped (total_size offset : Nat) (r : Region) : Region :=
  { r with mem := fun a =>
      if offset ≤ a ∧ a < total_size ∧ STEP_SIZE ∣ (a - offset) then calculate_value a
      else r.mem a }

/-- Start of the sub-region released for unit `i`, as the specification writes it
(no machine arithmetic). -/
def release_start (i : Nat) : Nat := i * PMD_SIZE + (i * STEP_SIZE) % PMD_SIZE

/-- Whether offset `a` lies inside one of the ranges `(start, length)` of a release log. -/
def in_released (released : List (Nat × Nat)) (a : Nat) : Bool :=
  released.any fun p => decide (p.1 ≤ a ∧ a < p.1 + p.2)

/-- Region after the release calls for the units `lo, lo + 1, ..., hi - 1`: the closed
form of what `unmap_loop` computes. -/
def after_release (lo hi : Nat) (r : Region) : Region :=
  { r with mapped := fun a =>
      if ∃ i, i < hi ∧ (lo ≤ i ∧ unmap_offset i ≤ a ∧ a < unmap_offset i + STEP_SIZE) then false
      else r.mapped a }

/-- The ranges released for the units `lo, ..., lo + n - 1`, in call order. -/
def release_log (lo n : Nat) : List (Nat × Nat) :=
  (List.range' lo n).map fun i => (unmap_offset i, STEP_SIZE)

/-- The four policy modes the specification allows, written out. -/
def is_policy_mode (m : String) : Prop :=
  m = "always" ∨ m = "madvise" ∨ m = "inherit" ∨ m = "never"

instance (m : String) : Decidable (is_policy_mode m) := by
  unfold is_policy_mode
  infer_instance

/-- White space of the "C" locale, character by character: space, horizontal tab,
line feed, vertical tab, form feed, carriage return. -/
def c_white_space : List Char :=
  [Char.ofNat 32, Char.ofNat 9, Char.ofNat 10, Char.ofNat 11, Char.ofNat 12, Char.ofNat 13]

/-- The characters a base-10 conversion consumes as digits, following the C
standard's description of the subject sequence: skip leading white space,
skip one sign if there is one, take the longest run of decimal digits. -/
def converted_digits (s : String) : List Char :=
  let t := s.toList.dropWhile fun c => decide (c ∈ c_white_space)
  let u := match t with
    | [] => []
    | c :: rest => if c = '+' ∨ c = '-' then rest else c :: rest
  u.takeWhile Char.isDigit

/-- A plain decimal numeral: at least one character, every character a digit. -/
def is_decimal_numeral (s : String) : Prop :=
  s.toList ≠ [] ∧ ∀ c ∈ s.toList, c.isDigit = true

instance (s : String) : Decidable (is_decimal_numeral s) := by
  unfold is_decimal_numeral
  infer_instance

/-- The number a plain decimal numeral denotes. -/
def numeral_value (s : String) : Nat :=
  s.toList.foldl (fun n c => 10 * n + (c.toNat - '0'.toNat)) 0

/-- The argument vectors `main` rejects, stated without the program's own table
and conversion: the page-size argument is missing, or it has no decimal digit
where the conversion starts (after leading white space and an optional sign)
or only zeros there, or a second argument is present and is none of the four
policy modes. -/
def bad_arguments (argv : List String) : Prop :=
  argv.length < 2 ∨
    (∀ c ∈ converted_digits (argv.getD 1 ""), c = '0') ∨
    (2 < argv.length ∧ ¬ is_policy_mode (argv.getD 2 ""))

instance (argv : List String) : Decidable (bad_arguments argv) := by
  unfold bad_arguments
  infer_instance

/-- The statistics reads for a list of size classes (in kB), two counters each. -/
def stat_reads (classes : List Nat) : List Event :=
  classes.flatMap fun s => [Event.read_stat s "nr_anon", Event.read_stat s "anon_fault_alloc"]

/-- The complete event trace of a successful run with page size 2048 kB and the
given policy mode, as `main` produces it. -/
def trace_2048 (mode : String) : List Event :=
  [Event.write_to_file 2048 mode, Event.mmap 8388608, Event.madvise 8388608,
    Event.checkpoint "Before Fault......"] ++ stat_reads [2048]
  ++ [Event.checkpoint "After Fault......"] ++ stat_reads [32768, 16384, 8192, 4096, 2048]
  ++ [Event.checkpoint "After partial unamp......"]
  ++ stat_reads [32768, 16384, 8192, 4096, 2048]
  ++ [Event.munmap_all 8388608, Event.checkpoint "After fully unamp......"]
  ++ stat_reads [32768, 16384, 8192, 4096, 2048]

/-- The complete event trace of the run `map_unamp 12abc` (page size taken as 12 kB,
default policy mode), as `main` produces it on a kernel that grants the mapping. -/
def trace_12 : List Event :=
  [Event.mmap 49152, Event.madvise 49152, Event.checkpoint "Before Fault......",
    Event.checkpoint "After Fault......"] ++ stat_reads [8192, 4096, 2048]
  ++ [Event.checkpoint "After partial unamp......"] ++ stat_reads [8192, 4096, 2048]
  ++ [Event.munmap_all 49152, Event.checkpoint "After fully unamp......"]
  ++ stat_reads [8192, 4096, 2048]

/-- Whether the window `[addr, addr + len)` meets none of the ranges released for the
units `lo, ..., hi - 1`. -/
def window_clear (lo hi addr len : Nat) : Bool :=
  decide (∀ i : Nat, i < hi → lo ≤ i →
    unmap_offset i + STEP_SIZE ≤ addr ∨ addr + len ≤ unmap_offset i)

/-- A region in which every byte is mapped (the requested range and what follows
it) and every byte holds the oracle's value for its offset. -/
def pattern_region : Region := ⟨calculate_value, fun _ => true⟩

/-- The region `pattern_region` with one wrong byte: offset 524288 (= 2 * `STEP_SIZE`)
holds 255 where the oracle says 2. -/
def corrupted_region : Region :=
  ⟨fun a => if a = 524288 then 255 else calculate_value a, fun _ => true⟩

/-! ## Basic facts -/

theorem STEP_SIZE_pos : 0 < STEP_SIZE := by decide

theorem calculate_value_lt (offset : Nat) : calculate_value offset < 256 :=
  Nat.mod_lt _ (by decide)

theorem calculate_value_mod (offset : Nat) : calculate_value offset % 256 = calculate_value offset :=
  Nat.mod_eq_of_lt (calculate_value_lt offset)

theorem sz_of_lt {n : Nat} (h : n < SIZE_MOD) : sz n = n := Nat.mod_eq_of_lt h

theorem sz_step {total_size offset : Nat} (hfit : total_size + STEP_SIZE ≤ SIZE_MOD)
    (h : offset < total_size) : sz (offset + STEP_SIZE) = offset + STEP_SIZE :=
  sz_of_lt (by omega)

theorem store_mapped (r : Region) (o v : Nat) : (r.store o v).mapped = r.mapped := rfl

/-! ## The stamping loop -/

theorem stamped_of_ge (total_size offset : Nat) (r : Region) (h : total_size ≤ offset) :
    stamped total_size offset r = r := by
  ext a
  · simp only [stamped]
    rw [if_neg]
    omega
  · rfl

theorem stamped_step (total_size offset : Nat) (r : Region) (h : offset < total_size) :
    stamped total_size (offset + STEP_SIZE) (r.store offset (calculate_value offset))
      = stamped total_size offset r := by
  ext a
  · simp only [stamped, Region.store, calculate_value_mod]
    by_cases ha : a = offset
    · subst ha
      have h1 : ¬ (a + STEP_SIZE ≤ a ∧ a < total_size ∧ STEP_SIZE ∣ a - (a + STEP_SIZE)) := by
        have := STEP_SIZE_pos
        omega
      rw [if_neg h1, if_pos rfl, if_pos ⟨le_refl a, h, by simp⟩]
    · by_cases hlt : a < offset
      · rw [if_neg (by omega), if_neg ha, if_neg (by omega)]
      · have hle : offset ≤ a := by omega
        by_cases hd : STEP_SIZE ∣ (a - offset)
        · obtain ⟨k, hk⟩ := hd
          have hk0 : k ≠ 0 := by
            rintro rfl
            omega
          obtain ⟨m, rfl⟩ := Nat.exists_eq_succ_of_ne_zero hk0
          have hsub : a - (offset + STEP_SIZE) = STEP_SIZE * m := by
            rw [Nat.mul_succ] at hk
            omega
          have hge : offset + STEP_SIZE ≤ a := by
            rw [Nat.mul_succ] at hk
            omega
          by_cases hat : a < total_size
          · rw [if_pos ⟨hge, hat, hsub ▸ Dvd.intro m rfl⟩, if_pos ⟨hle, hat, hk ▸ Dvd.intro _ rfl⟩]
          · rw [if_neg (fun h => hat h.2.1), if_neg ha, if_neg (fun h => hat h.2.1)]
        · have hd2 : ¬ (offset + STEP_SIZE ≤ a ∧ STEP_SIZE ∣ (a - (offset + STEP_SIZE))) := by
            rintro ⟨h1, k, hk⟩
            apply hd
            exact ⟨k + 1, by rw [Nat.mul_succ]; omega⟩
          rw [if_neg (fun h => hd2 ⟨h.1, h.2.2⟩), if_neg ha, if_neg (fun h => hd h.2.2)]
  · rfl

theorem touch_loop_done (total_size : Nat) (hfit : total_size + STEP_SIZE ≤ SIZE_MOD) :
    ∀ (fuel offset : Nat) (r : Region), (∀ a, a < total_size → r.mapped a = true) →
      total_size ≤ offset + fuel * STEP_SIZE →
      touch_loop total_size fuel offset r = .done (stamped total_size offset r) := by
  intro fuel
  induction fuel with
  | zero =>
    intro offset r _ hf
    have : ¬ offset < total_size := by omega
    simp only [touch_loop, if_neg this, stamped_of_ge total_size offset r (by omega)]
  | succ n ih =>
    intro offset r hm hf
    by_cases h : offset < total_size
    · simp only [touch_loop, if_pos h, hm offset h, if_true, sz_step hfit h]
      rw [ih _ _ (by simpa [store_mapped] using hm) (by rw [Nat.succ_mul] at hf; omega)]
      rw [stamped_step total_size offset r h]
    · simp only [touch_loop, if_neg h, stamped_of_ge total_size offset r (by omega)]

/-! ## The read-back loop -/

theorem verify_loop_done (total_size : Nat) (hfit : total_size + STEP_SIZE ≤ SIZE_MOD) :
    ∀ (fuel offset : Nat) (r : Region),
      (∀ a, offset ≤ a → a < total_size → STEP_SIZE ∣ (a - offset) →
        r.mapped a = true ∧ r.mem a = calculate_value a) →
      total_size ≤ offset + fuel * STEP_SIZE →
      verify_loop total_size fuel offset r = .done r := by
  intro fuel
  induction fuel with
  | zero =>
    intro offset r _ hf
    have : ¬ offset < total_size := by omega
    simp only [verify_loop, if_neg this]
  | succ n ih =>
    intro offset r hm hf
    by_cases h : offset < total_size
    · obtain ⟨h1, h2⟩ := hm offset (le_refl _) h (by simp)
      simp only [verify_loop, if_pos h, h1, if_true, sz_step hfit h, h2, ne_eq, not_true_eq_false,
        if_false]
      apply ih
      · intro a ha hat hd
        apply hm a (by omega) hat
        obtain ⟨k, hk⟩ := hd
        exact ⟨k + 1, by rw [Nat.mul_succ]; omega⟩
      · rw [Nat.succ_mul] at hf
        omega
    · simp only [verify_loop, if_neg h]

theorem fuel_enough {total_size fuel : Nat} (h : total_size / STEP_SIZE + 1 ≤ fuel) :
    total_size ≤ 0 + fuel * STEP_SIZE := by
  have h1 : total_size < (total_size / STEP_SIZE + 1) * STEP_SIZE := by
    have := Nat.lt_div_mul_add (a := total_size) STEP_SIZE_pos
    rw [Nat.add_mul, one_mul]
    exact this
  have h2 : (total_size / STEP_SIZE + 1) * STEP_SIZE ≤ fuel * STEP_SIZE :=
    Nat.mul_le_mul_right _ h
  omega

/-- On a region whose first `NUM_PAGES * page_size` bytes are mapped, and whose size
leaves room for the last increment of the loop counter, the function returns
normally with the stamped region. -/
theorem touch_and_verify_memory_done (fuel : Nat) (r : Region) (page_size : Nat)
    (hfit : NUM_PAGES * page_size + STEP_SIZE ≤ SIZE_MOD)
    (hmap : ∀ a, a < NUM_PAGES * page_size → r.mapped a = true)
    (hfuel : NUM_PAGES * page_size / STEP_SIZE + 1 ≤ fuel) :
    touch_and_verify_memory fuel r page_size = .done (stamped (NUM_PAGES * page_size) 0 r) := by
  have hsz : sz (NUM_PAGES * page_size) = NUM_PAGES * page_size :=
    sz_of_lt (by have := STEP_SIZE_pos; omega)
  simp only [touch_and_verify_memory, hsz]
  rw [touch_loop_done _ hfit fuel 0 r hmap (fuel_enough hfuel)]
  simp only
  apply verify_loop_done _ hfit
  · intro a _ hat hd
    refine ⟨hmap a hat, ?_⟩
    simp only [stamped]
    rw [if_pos ⟨Nat.zero_le _, hat, hd⟩]
  · exact fuel_enough hfuel

theorem stamped_idem (total_size : Nat) (r : Region) :
    stamped total_size 0 (stamped total_size 0 r) = stamped total_size 0 r := by
  ext a
  · simp only [stamped]
    split <;> rfl
  · rfl

/-! ## The release loop -/

theorem num_pmd_thps_eq (page_size : Nat) (h : NUM_PAGES * (page_size / PMD_SIZE) < 2 ^ 31) :
    num_pmd_thps page_size = NUM_PAGES * (page_size / PMD_SIZE) := by
  have h1 : sz (NUM_PAGES * (page_size / PMD_SIZE)) = NUM_PAGES * (page_size / PMD_SIZE) :=
    sz_of_lt (by simp only [SIZE_MOD]; omega)
  have h2 : NUM_PAGES * (page_size / PMD_SIZE) % 2 ^ 32 = NUM_PAGES * (page_size / PMD_SIZE) :=
    Nat.mod_eq_of_lt (by omega)
  simp only [num_pmd_thps, h1, size_to_int, h2, if_pos h, int_to_size]
  have h3 : ((NUM_PAGES * (page_size / PMD_SIZE) : Nat) : Int) % (2 ^ 64 : Int)
      = ((NUM_PAGES * (page_size / PMD_SIZE) : Nat) : Int) := by
    apply Int.emod_eq_of_lt
    · exact Int.natCast_nonneg _
    · have : NUM_PAGES * (page_size / PMD_SIZE) < 2 ^ 64 := by omega
      exact_mod_cast this
  rw [h3]
  exact Int.toNat_natCast _

theorem unmap_offset_eq (i : Nat) (h : (i + 1) * PMD_SIZE ≤ SIZE_MOD) :
    unmap_offset i = release_start i := by
  have hP : 0 < PMD_SIZE := by decide
  have h1 : i * PMD_SIZE + PMD_SIZE ≤ SIZE_MOD := by rw [Nat.succ_mul] at h; exact h
  have h2 : i * STEP_SIZE ≤ i * PMD_SIZE := Nat.mul_le_mul_left i (by decide)
  have h3 : i * STEP_SIZE % PMD_SIZE < PMD_SIZE := Nat.mod_lt _ hP
  simp only [unmap_offset, release_start]
  rw [sz_of_lt (n := i * PMD_SIZE) (by omega), sz_of_lt (n := i * STEP_SIZE) (by omega),
    sz_of_lt (by omega)]

theorem after_release_of_ge (lo hi : Nat) (r : Region) (h : hi ≤ lo) :
    after_release lo hi r = r := by
  ext a
  · rfl
  · simp only [after_release]
    rw [if_neg]
    rintro ⟨i, h1, h2, _⟩
    omega

theorem after_release_step (lo hi : Nat) (r r1 : Region) (h : lo < hi)
    (h1 : munmap r (unmap_offset lo) STEP_SIZE = some r1) :
    after_release (lo + 1) hi r1 = after_release lo hi r := by
  simp only [munmap, if_neg (Nat.ne_of_gt STEP_SIZE_pos), Option.some.injEq] at h1
  subst h1
  ext a
  · rfl
  · simp only [after_release]
    by_cases hx : ∃ i, i < hi ∧ (lo + 1 ≤ i ∧ unmap_offset i ≤ a ∧ a < unmap_offset i + STEP_SIZE)
    · obtain ⟨i, hi1, hi2, hi3⟩ := hx
      rw [if_pos ⟨i, hi1, hi2, hi3⟩, if_pos ⟨i, hi1, by omega, hi3⟩]
    · rw [if_neg hx]
      by_cases hy : unmap_offset lo ≤ a ∧ a < unmap_offset lo + STEP_SIZE
      · rw [if_pos hy, if_pos ⟨lo, h, le_refl _, hy⟩]
      · rw [if_neg hy, if_neg]
        rintro ⟨i, hi1, hi2, hi3⟩
        by_cases hil : i = lo
        · subst hil
          exact hy hi3
        · exact hx ⟨i, hi1, by omega, hi3⟩

theorem unmap_loop_done (bound : Nat) (hb : bound < SIZE_MOD) :
    ∀ (fuel page : Nat) (r : Region) (log : List (Nat × Nat)), bound ≤ page + fuel →
      unmap_loop bound fuel page r log
        = .done (after_release page bound r, log ++ release_log page (bound - page)) := by
  intro fuel
  induction fuel with
  | zero =>
    intro page r log hf
    have : ¬ page < bound := by omega
    have h0 : bound - page = 0 := by omega
    simp only [unmap_loop, if_neg this, after_release_of_ge page bound r (by omega), h0,
      release_log, List.range'_zero, List.map_nil, List.append_nil]
  | succ n ih =>
    intro page r log hf
    by_cases h : page < bound
    · have hm : munmap r (unmap_offset page) STEP_SIZE
          = some { r with mapped := fun a =>
              if unmap_offset page ≤ a ∧ a < unmap_offset page + STEP_SIZE then false
              else r.mapped a } := by
        simp only [munmap, if_neg (Nat.ne_of_gt STEP_SIZE_pos)]
      have hs : sz (page + 1) = page + 1 := sz_of_lt (by omega)
      have hcount : bound - page = (bound - (page + 1)) + 1 := by omega
      simp only [unmap_loop, if_pos h, hm, hs]
      rw [ih (page + 1) _ _ (by omega), after_release_step page bound r _ h hm, hcount]
      simp only [release_log, List.range'_succ, List.map_cons, List.append_assoc,
        List.singleton_append]
    · have h0 : bound - page = 0 := by omega
      simp only [unmap_loop, if_neg h, after_release_of_ge page bound r (by omega), h0,
        release_log, List.range'_zero, List.map_nil, List.append_nil]

theorem release_log_eq (n : Nat) (h : n * PMD_SIZE ≤ SIZE_MOD) :
    release_log 0 n = (List.range n).map fun i => (release_start i, STEP_SIZE) := by
  simp only [release_log, ← List.range_eq_range']
  apply List.map_congr_left
  intro i hi
  have hi1 : i + 1 ≤ n := List.mem_range.mp hi
  have : (i + 1) * PMD_SIZE ≤ n * PMD_SIZE := Nat.mul_le_mul_right _ hi1
  rw [unmap_offset_eq i (by omega)]

theorem release_start_bounds (i : Nat) :
    i * PMD_SIZE ≤ release_start i ∧ release_start i + STEP_SIZE ≤ (i + 1) * PMD_SIZE := by
  simp only [release_start, PMD_SIZE, STEP_SIZE]
  omega

theorem units_inside (page_size i : Nat) (hi : i < NUM_PAGES * (page_size / PMD_SIZE)) :
    (i + 1) * PMD_SIZE ≤ NUM_PAGES * page_size := by
  have h1 : (i + 1) * PMD_SIZE ≤ NUM_PAGES * (page_size / PMD_SIZE) * PMD_SIZE :=
    Nat.mul_le_mul_right _ hi
  have h2 : page_size / PMD_SIZE * PMD_SIZE ≤ page_size := Nat.div_mul_le_self _ _
  have h3 : NUM_PAGES * (page_size / PMD_SIZE) * PMD_SIZE
      = NUM_PAGES * (page_size / PMD_SIZE * PMD_SIZE) := Nat.mul_assoc _ _ _
  have h4 : NUM_PAGES * (page_size / PMD_SIZE * PMD_SIZE) ≤ NUM_PAGES * page_size :=
    Nat.mul_le_mul_left _ h2
  omega

/-! ## The liveness probe and the check loop -/

theorem msync_eq_true_iff (r : Region) (addr len : Nat) :
    msync r addr len = true ↔ ∀ j, j < len → r.mapped (addr + j) = true := by
  simp only [msync]
  induction len with
  | zero => simp [all_mapped]
  | succ n ih =>
    simp only [all_mapped]
    constructor
    · intro h j hj
      by_cases hm : r.mapped (addr + n) = true
      · rw [if_pos hm] at h
        rcases Nat.lt_succ_iff_lt_or_eq.mp hj with hlt | rfl
        · exact ih.mp h j hlt
        · exact hm
      · rw [if_neg hm] at h
        exact absurd h (by decide)
    · intro h
      rw [if_pos (h n (Nat.lt_succ_self n))]
      exact ih.mpr fun j hj => h j (Nat.lt_succ_of_lt hj)

theorem msync_mapped_start (r : Region) (addr len : Nat) (hlen : 0 < len)
    (h : msync r addr len = true) : r.mapped addr = true := by
  have := (msync_eq_true_iff r addr len).mp h 0 hlen
  simpa using this

/-- The probe on a region whose bytes were all mapped before the releases: it
succeeds exactly when its window `[addr, addr + len)` meets no released range. -/
theorem msync_after_release (lo hi : Nat) (r : Region) (addr len : Nat)
    (hall : ∀ a, r.mapped a = true) (hlen : 0 < len) :
    msync (after_release lo hi r) addr len = window_clear lo hi addr len := by
  rw [Bool.eq_iff_iff, msync_eq_true_iff, window_clear, decide_eq_true_eq]
  constructor
  · intro h i hi1 hi2
    by_contra hc
    have hS := STEP_SIZE_pos
    have h1 : addr < unmap_offset i + STEP_SIZE := by omega
    have h2 : unmap_offset i < addr + len := by omega
    have hj := h (max addr (unmap_offset i) - addr) (by omega)
    have hmax : addr + (max addr (unmap_offset i) - addr) = max addr (unmap_offset i) := by omega
    rw [hmax] at hj
    simp only [after_release] at hj
    rw [if_pos ⟨i, hi1, hi2, by omega, by omega⟩] at hj
    exact Bool.false_ne_true hj
  · intro h j hj
    simp only [after_release]
    rw [if_neg, hall]
    rintro ⟨i, hi1, hi2, hi3, hi4⟩
    rcases h i hi1 hi2 with h5 | h5 <;> omega

theorem check_loop_done (total_size page_size : Nat) (r : Region)
    (hfit : total_size + STEP_SIZE ≤ SIZE_MOD) :
    ∀ (n fuel offset : Nat) (gone compared : List Nat), n ≤ fuel →
      total_size ≤ offset + n * STEP_SIZE →
      (∀ m, m < n → offset + m * STEP_SIZE < total_size) →
      (∀ m, m < n → msync r (offset + m * STEP_SIZE) page_size = true →
        r.mapped (offset + m * STEP_SIZE) = true ∧
          r.mem (offset + m * STEP_SIZE) = calculate_value (offset + m * STEP_SIZE)) →
      check_loop total_size page_size r fuel offset gone compared
        = .done (gone ++ (List.range' offset n STEP_SIZE).filter
                    (fun o => !msync r o page_size),
                 compared ++ (List.range' offset n STEP_SIZE).filter
                    (fun o => msync r o page_size)) := by
  intro n
  induction n with
  | zero =>
    intro fuel offset gone compared _ ht _ _
    have h : ¬ offset < total_size := by omega
    cases fuel <;>
      simp only [check_loop, if_neg h, List.range', List.filter_nil, List.append_nil]
  | succ n ih =>
    intro fuel offset gone compared hf ht hlt hok
    have h : offset < total_size := by simpa using hlt 0 (Nat.succ_pos n)
    obtain ⟨f, rfl⟩ : ∃ f, fuel = f + 1 := ⟨fuel - 1, by omega⟩
    have hnext : ∀ m, offset + STEP_SIZE + m * STEP_SIZE = offset + (m + 1) * STEP_SIZE := by
      intro m
      rw [Nat.succ_mul]
      omega
    have ih1 := fun g c => ih f (offset + STEP_SIZE) g c (by omega)
      (by rw [Nat.succ_mul] at ht; omega)
      (fun m hm => by rw [hnext]; exact hlt (m + 1) (by omega))
      (fun m hm => by rw [hnext]; exact hok (m + 1) (by omega))
    cases hs : msync r offset page_size with
    | false =>
      simp only [check_loop, if_pos h, hs, if_true, sz_step hfit h, ih1, List.range',
        List.filter_cons, Bool.not_false, List.append_assoc, List.singleton_append,
        Bool.false_eq_true, if_false]
    | true =>
      obtain ⟨h1, h2⟩ := hok 0 (Nat.succ_pos n) (by simpa using hs)
      simp only [Nat.zero_mul, Nat.add_zero] at h1 h2
      simp only [check_loop, if_pos h, hs, Bool.true_eq_false, if_false, h1, if_true, h2, ne_eq,
        not_true_eq_false, sz_step hfit h, ih1, List.range', List.filter_cons, Bool.not_true,
        Bool.false_eq_true, List.append_assoc, List.singleton_append]

theorem partial_unmap_and_verify_done (fuel : Nat) (r : Region) (page_size : Nat)
    (r1 : Region) (released : List (Nat × Nat)) (gone compared : List Nat)
    (hu : unmap_loop (num_pmd_thps page_size) fuel 0 r [] = .done (r1, [] ++ released))
    (hc : check_loop (sz (NUM_PAGES * page_size)) page_size r1 fuel 0 [] []
      = .done (gone, compared)) :
    partial_unmap_and_verify fuel r page_size = .done ⟨r1, released, gone, compared⟩ := by
  simp only [partial_unmap_and_verify, hu, hc, List.nil_append]

/-- The whole of `partial_unmap_and_verify` for `page_size` = 2 MiB on a region whose
bytes are all mapped, when every offset whose probe succeeds holds the oracle's
value. -/
theorem partial_2MiB_done (fuel : Nat) (hfuel : 32 ≤ fuel) (r : Region)
    (hall : ∀ a, r.mapped a = true)
    (hok : ∀ m, m < 32 → msync (after_release 0 4 r) (0 + m * STEP_SIZE) 2097152 = true →
      r.mem (0 + m * STEP_SIZE) = calculate_value (0 + m * STEP_SIZE)) :
    partial_unmap_and_verify fuel r 2097152
      = .done ⟨after_release 0 4 r, release_log 0 4,
          (List.range' 0 32 STEP_SIZE).filter (fun o => !window_clear 0 4 o 2097152),
          (List.range' 0 32 STEP_SIZE).filter (fun o => window_clear 0 4 o 2097152)⟩ := by
  apply partial_unmap_and_verify_done
  · rw [num_pmd_thps_eq 2097152 (by decide)]
    exact unmap_loop_done 4 (by decide) fuel 0 r [] (by omega)
  · have ht : sz (NUM_PAGES * 2097152) = 8388608 := by decide
    rw [ht]
    have hc := check_loop_done 8388608 2097152 (after_release 0 4 r) (by decide) 32 fuel 0 [] []
      hfuel (by decide)
      (by
        intro m hm
        simp only [STEP_SIZE]
        omega)
      (by
        intro m hm hs
        exact ⟨msync_mapped_start _ _ _ (by decide) hs, hok m hm hs⟩)
    rw [hc]
    simp only [List.nil_append, msync_after_release 0 4 r _ 2097152 hall (by decide)]

theorem release_log_2MiB :
    release_log 0 4
      = [(0, 262144), (2359296, 262144), (4718592, 262144), (7077888, 262144)] := by
  decide

theorem gone_2MiB :
    (List.range' 0 32 STEP_SIZE).filter (fun o => !window_clear 0 4 o 2097152)
      = [0, 524288, 786432, 1048576, 1310720, 1572864, 1835008, 2097152, 2359296, 2883584,
          3145728, 3407872, 3670016, 3932160, 4194304, 4456448, 4718592, 5242880, 5505024,
          5767168, 6029312, 6291456, 6553600, 6815744, 7077888] := by
  decide

theorem compared_2MiB :
    (List.range' 0 32 STEP_SIZE).filter (fun o => window_clear 0 4 o 2097152)
      = [262144, 2621440, 4980736, 7340032, 7602176, 7864320, 8126464] := by
  decide

/-! ## Argument handling -/

theorem foldl_digits_eq_zero (ds : List Nat) :
    ∀ acc, ds.foldl (fun acc d => acc * 10 + d) acc = 0 ↔ acc = 0 ∧ ∀ d ∈ ds, d = 0 := by
  induction ds with
  | nil => intro acc; simp
  | cons d ds ih =>
    intro acc
    rw [List.foldl_cons, ih]
    constructor
    · rintro ⟨h1, h2⟩
      refine ⟨by omega, ?_⟩
      intro x hx
      rcases List.mem_cons.mp hx with rfl | hx
      · omega
      · exact h2 x hx
    · rintro ⟨h1, h2⟩
      have hd := h2 d (List.mem_cons_self _ _)
      exact ⟨by omega, fun x hx => h2 x (List.mem_cons_of_mem _ hx)⟩

/-- The conversion gives 0 exactly when there is no digit to convert or every
converted digit is 0. -/
theorem strtoul10_eq_zero (s : String) :
    strtoul10 s = 0 ↔ ∀ d ∈ (subject s).2, d = 0 := by
  have hv : digits_value (subject s).2 = 0 ↔ ∀ d ∈ (subject s).2, d = 0 := by
    rw [digits_value, foldl_digits_eq_zero]
    simp
  have hM : SIZE_MOD = 18446744073709551616 := by decide
  rw [← hv]
  simp only [strtoul10]
  by_cases h1 : SIZE_MOD ≤ digits_value (subject s).2
  · rw [if_pos h1]
    omega
  · rw [if_neg h1]
    by_cases h2 : (subject s).1 = true
    · rw [if_pos h2]
      constructor
      · intro h
        by_contra hne
        have hlt : SIZE_MOD - digits_value (subject s).2 < SIZE_MOD := by omega
        rw [Nat.mod_eq_of_lt hlt] at h
        omega
      · intro h
        rw [h, Nat.sub_zero, Nat.mod_self]
    · rw [if_neg h2]

theorem strncpy_allowed (input : String) (h : input ∈ allowed_values) :
    String.mk (input.toList.take 19) = input := by
  simp only [allowed_values, List.mem_cons, List.mem_singleton, List.not_mem_nil, or_false] at h
  rcases h with rfl | rfl | rfl | rfl <;> decide

theorem allowed_any (input : String) :
    allowed_values.any (fun v => decide (input = v)) = true ↔ input ∈ allowed_values := by
  simp only [List.any_eq_true, decide_eq_true_eq]
  constructor
  · rintro ⟨v, hv, rfl⟩
    exact hv
  · intro h
    exact ⟨input, h, rfl⟩

theorem allowed_iff (input : String) : input ∈ allowed_values ↔ is_policy_mode input := by
  simp only [allowed_values, is_policy_mode, List.mem_cons, List.mem_singleton,
    List.not_mem_nil, or_false]

theorem isDigit_iff (c : Char) : c.isDigit = true ↔ 48 ≤ c.toNat ∧ c.toNat ≤ 57 := by
  simp only [Char.isDigit, Char.toNat, Bool.and_eq_true, decide_eq_true_eq, ge_iff_le]
  exact Iff.rfl

theorem char_eq_of_toNat (c : Char) (n : Nat) (h : c.toNat = n) : c = Char.ofNat n := by
  rw [← h, Char.ofNat_toNat]

theorem is_space_iff (c : Char) : is_space c = true ↔ c ∈ c_white_space := by
  simp only [is_space, c_white_space, Bool.decide_or, Bool.decide_and, Bool.or_eq_true,
    Bool.and_eq_true, decide_eq_true_eq, List.mem_cons, List.mem_singleton, List.not_mem_nil,
    or_false]
  constructor
  · rintro (h | ⟨h1, h2⟩)
    · exact Or.inl (char_eq_of_toNat c 32 h)
    · have : c.toNat = 9 ∨ c.toNat = 10 ∨ c.toNat = 11 ∨ c.toNat = 12 ∨ c.toNat = 13 := by omega
      rcases this with h | h | h | h | h
      · exact Or.inr (Or.inl (char_eq_of_toNat c _ h))
      · exact Or.inr (Or.inr (Or.inl (char_eq_of_toNat c _ h)))
      · exact Or.inr (Or.inr (Or.inr (Or.inl (char_eq_of_toNat c _ h))))
      · exact Or.inr (Or.inr (Or.inr (Or.inr (Or.inl (char_eq_of_toNat c _ h)))))
      · exact Or.inr (Or.inr (Or.inr (Or.inr (Or.inr (char_eq_of_toNat c _ h)))))
  · rintro (h | h | h | h | h | h) <;> subst h <;> decide

theorem leading_digits_eq (t : List Char) :
    leading_digits t = (t.takeWhile Char.isDigit).map fun c => c.toNat - 48 := by
  induction t with
  | nil => rfl
  | cons c cs ih =>
    by_cases h : 48 ≤ c.toNat ∧ c.toNat ≤ 57
    · have hd : c.isDigit = true := (isDigit_iff c).mpr h
      simp only [leading_digits, if_pos h, List.takeWhile_cons, hd, if_true, List.map_cons, ih]
    · have hd : c.isDigit = false := by
        rw [Bool.eq_false_iff]
        exact fun hc => h ((isDigit_iff c).mp hc)
      simp only [leading_digits, if_neg h, List.takeWhile_cons, hd, Bool.false_eq_true, if_false,
        List.map_nil]

theorem white_space_pred : (fun c => decide (c ∈ c_white_space)) = is_space := by
  funext c
  rw [Bool.eq_iff_iff, decide_eq_true_eq, is_space_iff]

/-- The digits the model of `strtoul` converts are the digits of the subject
sequence as the C standard describes it. -/
theorem subject_digits (s : String) :
    (subject s).2 = (converted_digits s).map fun c => c.toNat - 48 := by
  simp only [subject, converted_digits, white_space_pred]
  split
  · rename_i t heq
    simp only [heq, leading_digits_eq]
    rfl
  · rename_i t heq
    simp only [heq, leading_digits_eq]
    rfl
  · rename_i t h1 h2
    cases ht : List.dropWhile is_space s.toList with
    | nil => rfl
    | cons c rest =>
      have hc : ¬ (c = '+' ∨ c = '-') := by
        rintro (rfl | rfl)
        · exact h2 rest ht
        · exact h1 rest ht
      simp only [if_neg hc, leading_digits_eq]

theorem converted_digits_isDigit (s : String) (c : Char) (h : c ∈ converted_digits s) :
    c.isDigit = true := by
  simp only [converted_digits] at h
  exact List.mem_takeWhile_imp h

theorem subject_all_zero (s : String) :
    (∀ d ∈ (subject s).2, d = 0) ↔ ∀ c ∈ converted_digits s, c = '0' := by
  rw [subject_digits]
  constructor
  · intro h c hc
    have hd := (isDigit_iff c).mp (converted_digits_isDigit s c hc)
    have h0 := h (c.toNat - 48) (List.mem_map.mpr ⟨c, hc, rfl⟩)
    exact char_eq_of_toNat c 48 (by omega)
  · intro h d hd
    obtain ⟨c, hc, rfl⟩ := List.mem_map.mp hd
    rw [h c hc]
    rfl

/-- The conversion gives 0 exactly when the argument has no digit where the
conversion starts, or only zeros there. -/
theorem strtoul10_eq_zero_iff (s : String) :
    strtoul10 s = 0 ↔ ∀ c ∈ converted_digits s, c = '0' := by
  rw [strtoul10_eq_zero, subject_all_zero]

theorem takeWhile_all {α : Type} (p : α → Bool) (l : List α) (h : ∀ x ∈ l, p x = true) :
    l.takeWhile p = l := by
  induction l with
  | nil => rfl
  | cons x xs ih =>
    rw [List.takeWhile_cons, h x (List.mem_cons_self _ _),
      ih fun y hy => h y (List.mem_cons_of_mem _ hy)]
    rfl

theorem subject_numeral (s : String) (h : is_decimal_numeral s) :
    subject s = (false, s.toList.map fun c => c.toNat - 48) := by
  obtain ⟨hne, hall⟩ := h
  cases hl : s.toList with
  | nil => exact absurd hl hne
  | cons c cs =>
    have hc : c.isDigit = true := hall c (by rw [hl]; exact List.mem_cons_self _ _)
    have hcn := (isDigit_iff c).mp hc
    have hsp : is_space c = false := by
      rw [Bool.eq_false_iff]
      intro hs
      simp only [is_space, Bool.decide_or, Bool.decide_and, Bool.or_eq_true, Bool.and_eq_true,
        decide_eq_true_eq] at hs
      omega
    have hminus : c ≠ '-' := by
      rintro rfl
      exact absurd hcn (by decide)
    have hplus : c ≠ '+' := by
      rintro rfl
      exact absurd hcn (by decide)
    have hdrop : List.dropWhile is_space (c :: cs) = c :: cs := by
      rw [List.dropWhile_cons, hsp]
      rfl
    have htake : List.takeWhile Char.isDigit (c :: cs) = c :: cs :=
      takeWhile_all _ _ (by rw [← hl]; exact hall)
    simp only [subject, hl, hdrop]
    split
    · rename_i t heq
      exact absurd (List.cons.inj heq).1 hminus
    · rename_i t heq
      exact absurd (List.cons.inj heq).1 hplus
    · rw [leading_digits_eq, htake]

theorem digits_value_map (l : List Char) (acc : Nat) :
    (l.map fun c => c.toNat - 48).foldl (fun acc d => acc * 10 + d) acc
      = l.foldl (fun n c => 10 * n + (c.toNat - '0'.toNat)) acc := by
  induction l generalizing acc with
  | nil => rfl
  | cons c cs ih =>
    simp only [List.map_cons, List.foldl_cons]
    rw [ih, Nat.mul_comm]
    rfl

/-- On a plain decimal numeral whose value fits an `unsigned long`, the model of
`strtoul` returns that value. -/
theorem strtoul10_numeral (s : String) (h : is_decimal_numeral s)
    (hv : numeral_value s < SIZE_MOD) : strtoul10 s = numeral_value s := by
  have hval : digits_value (s.toList.map fun c => c.toNat - 48) = numeral_value s :=
    digits_value_map s.toList 0
  simp only [strtoul10, subject_numeral s h, hval]
  rw [if_neg (by omega), if_neg (by decide)]

/-- Every run of `main_body` starts with the policy writes and then attempts the mapping. -/
theorem main_body_trace (env : Env) (page_size_kb : Nat) (enable_str : String) :
    ∃ rest, (main_body env page_size_kb enable_str).trace
      = enable_hugepages_sizes page_size_kb enable_str
        ++ Event.mmap (sz (NUM_PAGES * sz (page_size_kb * 1024))) :: rest := by
  simp only [main_body]
  split
  · exact ⟨[], rfl⟩
  · split
    · exact ⟨_, by simp only [List.append_assoc, List.singleton_append]; rfl⟩
    · exact ⟨_, by simp only [List.append_assoc, List.singleton_append]; rfl⟩
    · exact ⟨_, by simp only [List.append_assoc, List.singleton_append]; rfl⟩
    · split
      · exact ⟨_, by simp only [List.append_assoc, List.singleton_append]; rfl⟩
      · exact ⟨_, by simp only [List.append_assoc, List.singleton_append]; rfl⟩
      · exact ⟨_, by simp only [List.append_assoc, List.singleton_append]; rfl⟩
      · split
        · exact ⟨_, by simp only [List.append_assoc, List.singleton_append]; rfl⟩
        · exact ⟨_, by simp only [List.append_assoc, List.singleton_append]; rfl⟩

/-! ## What the code does guarantee -/

/-- The stamped values are pairwise distinct as long as the region has at most 256
samples, that is `NUM_PAGES * page_size` is at most 64 MiB (page size at most
16384 kB). -/
theorem calculate_value_unique_of_small (page_size k1 k2 : Nat)
    (hsmall : NUM_PAGES * page_size ≤ 256 * STEP_SIZE)
    (h1 : k1 * STEP_SIZE < NUM_PAGES * page_size) (h2 : k2 * STEP_SIZE < NUM_PAGES * page_size)
    (hne : k1 ≠ k2) :
    calculate_value (k1 * STEP_SIZE) ≠ calculate_value (k2 * STEP_SIZE) := by
  have hS := STEP_SIZE_pos
  have hk1 : k1 < 256 := by
    by_contra hc
    have : 256 * STEP_SIZE ≤ k1 * STEP_SIZE := Nat.mul_le_mul_right _ (by omega)
    omega
  have hk2 : k2 < 256 := by
    by_contra hc
    have : 256 * STEP_SIZE ≤ k2 * STEP_SIZE := Nat.mul_le_mul_right _ (by omega)
    omega
  simp only [calculate_value, Nat.mul_div_cancel _ hS, Nat.mod_eq_of_lt hk1,
    Nat.mod_eq_of_lt hk2]
  exact hne

/-- If the check loop returns normally, every offset it visited whose probe
succeeded holds the oracle's value. -/
theorem check_loop_sound (total_size page_size : Nat) (r : Region)
    (hfit : total_size + STEP_SIZE ≤ SIZE_MOD) :
    ∀ (fuel offset : Nat) (gone compared : List Nat) (out : List Nat × List Nat),
      check_loop total_size page_size r fuel offset gone compared = .done out →
      ∀ k, offset + k * STEP_SIZE < total_size →
        msync r (offset + k * STEP_SIZE) page_size = true →
        r.mem (offset + k * STEP_SIZE) = calculate_value (offset + k * STEP_SIZE) := by
  intro fuel
  induction fuel with
  | zero =>
    intro offset gone compared out h k hk _
    have hlt : offset < total_size := by omega
    simp only [check_loop, if_pos hlt] at h
    cases h
  | succ n ih =>
    intro offset gone compared out h k hk hs
    have hlt : offset < total_size := by omega
    simp only [check_loop, if_pos hlt, sz_step hfit hlt] at h
    have hnext : ∀ j, offset + STEP_SIZE + j * STEP_SIZE = offset + (j + 1) * STEP_SIZE := by
      intro j
      rw [Nat.succ_mul]
      omega
    cases k with
    | zero =>
      simp only [Nat.zero_mul, Nat.add_zero] at hs ⊢
      rw [hs] at h
      simp only [Bool.true_eq_false, if_false] at h
      split at h
      · split at h
        · cases h
        · rename_i hne
          simpa using hne
      · cases h
    | succ j =>
      rw [← hnext] at hk hs ⊢
      split at h
      · exact ih _ _ _ _ h j hk hs
      · split at h
        · split at h
          · cases h
          · exact ih _ _ _ _ h j hk hs
        · cases h

/-- If `partial_unmap_and_verify` returns normally, every sampled offset whose whole
probe window `[o, o + page_size)` is still mapped holds the oracle's value. -/
theorem partial_unmap_and_verify_sound (fuel : Nat) (r : Region) (page_size : Nat)
    (res : Partial) (hfit : NUM_PAGES * page_size + STEP_SIZE ≤ SIZE_MOD)
    (h : partial_unmap_and_verify fuel r page_size = .done res) :
    ∀ k, k * STEP_SIZE < NUM_PAGES * page_size →
      msync res.region (k * STEP_SIZE) page_size = true →
      res.region.mem (k * STEP_SIZE) = calculate_value (k * STEP_SIZE) := by
  have hsz : sz (NUM_PAGES * page_size) = NUM_PAGES * page_size :=
    sz_of_lt (by have := STEP_SIZE_pos; omega)
  simp only [partial_unmap_and_verify, hsz] at h
  split at h
  · rename_i r1 released hu
    split at h
    · rename_i gone compared hc
      cases h
      intro k hk hs
      have := check_loop_sound _ page_size r1 hfit fuel 0 [] [] _ hc k (by simpa using hk)
        (by simpa using hs)
      simpa using this
    · cases h
    · cases h
    · cases h
  · cases h
  · cases h
  · cases h

/-! ## A complete run at 2048 kB -/

theorem main_body_2048 (env : Env) (mode : String) (hmm : env.mmap_ok = true)
    (hb : ∀ a, env.beyond a = true) (hf : 33 ≤ env.fuel) :
    main_body env 2048 mode = ⟨trace_2048 mode, .exited 0⟩ := by
  have h1 : sz (2048 * 1024) = 2097152 := by decide
  have h2 : sz (NUM_PAGES * 2097152) = 8388608 := by decide
  have h3 : mmap env 8388608
      = some ⟨fun _ => 0, fun a => if a < 8388608 then true else env.beyond a⟩ := by
    simp [mmap, hmm]
  have hall : ∀ a, (if a < 8388608 then true else env.beyond a) = true := by
    intro a
    split
    · rfl
    · exact hb a
  have h4 := touch_and_verify_memory_done env.fuel
    ⟨fun _ => 0, fun a => if a < 8388608 then true else env.beyond a⟩ 2097152
    (by decide) (fun a _ => hall a) (by
      have : NUM_PAGES * 2097152 / STEP_SIZE + 1 = 33 := by decide
      omega)
  have h5 := partial_2MiB_done env.fuel (by omega)
    (stamped (NUM_PAGES * 2097152) 0
      ⟨fun _ => 0, fun a => if a < 8388608 then true else env.beyond a⟩)
    hall (by
      intro m hm _
      simp only [stamped]
      rw [if_pos]
      refine ⟨Nat.zero_le _, ?_, ?_⟩
      · simp only [STEP_SIZE, NUM_PAGES]
        omega
      · simp)
  have h6 : ∀ r : Region, munmap r 0 8388608
      = some { r with mapped := fun a => if 0 ≤ a ∧ a < 0 + 8388608 then false else r.mapped a } := by
    intro r
    simp [munmap]
  simp only [main_body, h1, h2, h3, h4, h5, h6]
  rfl

theorem main_2048 (env : Env) (arg0 : String) (hmm : env.mmap_ok = true)
    (hb : ∀ a, env.beyond a = true) (hf : 33 ≤ env.fuel) :
    main env [arg0, "2048"] = ⟨trace_2048 "always", .exited 0⟩ := by
  have hs : strtoul10 "2048" = 2048 := by decide
  have hm : main env [arg0, "2048"] = main_body env 2048 "always" := by
    simp only [main, hs]
    rfl
  rw [hm]
  exact main_body_2048 env "always" hmm hb hf

/-! ## A complete run at 12 kB -/

theorem partial_12kB_done (fuel : Nat) (hfuel : 1 ≤ fuel) (r : Region)
    (hmap : ∀ a, a < 49152 → r.mapped a = true)
    (hok : r.mem 0 = calculate_value 0) :
    partial_unmap_and_verify fuel r 12288
      = .done ⟨after_release 0 0 r, release_log 0 0, [], [0]⟩ := by
  have hr : after_release 0 0 r = r := after_release_of_ge 0 0 r (le_refl _)
  have hms : msync r 0 12288 = true :=
    (msync_eq_true_iff r 0 12288).mpr fun j hj => hmap (0 + j) (by omega)
  apply partial_unmap_and_verify_done
  · rw [num_pmd_thps_eq 12288 (by decide)]
    exact unmap_loop_done 0 (by decide) fuel 0 r [] (by omega)
  · have ht : sz (NUM_PAGES * 12288) = 49152 := by decide
    rw [ht, hr]
    have hc := check_loop_done 49152 12288 r (by decide) 1 fuel 0 [] [] hfuel (by decide)
      (by
        intro m hm
        have : m = 0 := by omega
        subst this
        decide)
      (by
        intro m hm _
        have : m = 0 := by omega
        subst this
        exact ⟨hmap 0 (by decide), hok⟩)
    rw [hc]
    simp only [List.range', List.filter_cons, hms, Bool.not_true, Bool.false_eq_true, if_false,
      if_true, List.filter_nil, List.nil_append]

theorem main_body_12 (env : Env) (hmm : env.mmap_ok = true) (hf : 1 ≤ env.fuel) :
    main_body env 12 "always" = ⟨trace_12, .exited 0⟩ := by
  have h1 : sz (12 * 1024) = 12288 := by decide
  have h2 : sz (NUM_PAGES * 12288) = 49152 := by decide
  have h3 : mmap env 49152
      = some ⟨fun _ => 0, fun a => if a < 49152 then true else env.beyond a⟩ := by
    simp [mmap, hmm]
  have hmap : ∀ a, a < 49152 → (if a < 49152 then true else env.beyond a) = true := by
    intro a ha
    rw [if_pos ha]
  have h4 := touch_and_verify_memory_done env.fuel
    ⟨fun _ => 0, fun a => if a < 49152 then true else env.beyond a⟩ 12288
    (by decide) hmap (by
      have : NUM_PAGES * 12288 / STEP_SIZE + 1 = 1 := by decide
      omega)
  have h5 := partial_12kB_done env.fuel hf
    (stamped (NUM_PAGES * 12288) 0
      ⟨fun _ => 0, fun a => if a < 49152 then true else env.beyond a⟩)
    hmap (by
      simp only [stamped]
      rw [if_pos]
      exact ⟨le_refl _, by decide, by simp⟩)
  have h6 : ∀ r : Region, munmap r 0 49152
      = some { r with
          mapped := fun a => if 0 ≤ a ∧ a < 0 + 49152 then false else r.mapped a } := by
    intro r
    simp [munmap]
  simp only [main_body, h1, h2, h3, h4, h5, h6]
  rfl

theorem main_12abc (env : Env) (arg0 : String) (hmm : env.mmap_ok = true) (hf : 1 ≤ env.fuel) :
    main env [arg0, "12abc"] = ⟨trace_12, .exited 0⟩ := by
  have hs : strtoul10 "12abc" = 12 := by decide
  have hm : main env [arg0, "12abc"] = main_body env 12 "always" := by
    simp only [main, hs]
    rfl
  rw [hm]
  exact main_body_12 env hmm hf

/-! ## The oracle and touch-and-verify: specification properties -/

/-- C1: for every offset, `calculate_value` returns a byte in `[0, 255]` equal to
`(offset / STEP_SIZE) mod 256` with `STEP_SIZE` = 256 KiB and integer division, and
two offsets with the same quotient by `STEP_SIZE` get the same value. -/
theorem calculate_value_contract (o1 o2 : Nat) :
    calculate_value o1 < 256 ∧ calculate_value o1 = (o1 / (256 * 1024)) % 256 ∧
      STEP_SIZE = 256 * 1024 ∧
      (o1 / STEP_SIZE = o2 / STEP_SIZE → calculate_value o1 = calculate_value o2) := by
  refine ⟨calculate_value_lt o1, rfl, rfl, ?_⟩
  intro h
  simp only [calculate_value, h]

/-- C5: on a region whose `NUM_PAGES * page_size` bytes are all mapped (its size leaving
room for the last increment of the 64-bit loop counter, as every mappable region
does), `touch_and_verify_memory` returns normally once the fuel covers one
iteration per sample; afterwards every sampled offset `k * STEP_SIZE` below
`NUM_PAGES * page_size` holds `calculate_value`, every other byte is unchanged,
and the mapping is unchanged. -/
theorem touch_and_verify_memory_postcondition (fuel : Nat) (r : Region) (page_size : Nat)
    (hfit : NUM_PAGES * page_size + STEP_SIZE ≤ SIZE_MOD)
    (hmap : ∀ a, a < NUM_PAGES * page_size → r.mapped a = true)
    (hfuel : NUM_PAGES * page_size / STEP_SIZE + 1 ≤ fuel) :
    ∃ r1, touch_and_verify_memory fuel r page_size = .done r1 ∧
      (∀ k, k * STEP_SIZE < NUM_PAGES * page_size →
        r1.mem (k * STEP_SIZE) = calculate_value (k * STEP_SIZE)) ∧
      (∀ a, ¬ (a < NUM_PAGES * page_size ∧ STEP_SIZE ∣ a) → r1.mem a = r.mem a) ∧
      r1.mapped = r.mapped := by
  refine ⟨_, touch_and_verify_memory_done fuel r page_size hfit hmap hfuel, ?_, ?_, rfl⟩
  · intro k hk
    simp only [stamped]
    rw [if_pos ⟨Nat.zero_le _, hk, Dvd.intro_left k rfl⟩]
  · intro a ha
    simp only [stamped]
    rw [if_neg]
    rintro ⟨_, h1, h2⟩
    exact ha ⟨h1, h2⟩

/-- Witness of C5 at `page_size` = 2 MiB on a zero-filled, fully mapped region. -/
theorem touch_and_verify_memory_postcondition_witness :
    ∃ r1, touch_and_verify_memory 33 ⟨fun _ => 0, fun _ => true⟩ 2097152 = .done r1 ∧
      (∀ k, k * STEP_SIZE < NUM_PAGES * 2097152 →
        r1.mem (k * STEP_SIZE) = calculate_value (k * STEP_SIZE)) ∧
      (∀ a, ¬ (a < NUM_PAGES * 2097152 ∧ STEP_SIZE ∣ a) → r1.mem a = 0) ∧
      r1.mapped = fun _ => true :=
  touch_and_verify_memory_postcondition 33 ⟨fun _ => 0, fun _ => true⟩ 2097152
    (by decide) (fun _ _ => rfl) (by decide)

/-- C6: on a region whose `NUM_PAGES * page_size` bytes are all mapped, running
`touch_and_verify_memory` a second time right after the first gives the same
outcome (normal return) and the same region, contents included, for every
initial contents. -/
theorem touch_and_verify_memory_idempotent (fuel : Nat) (r : Region) (page_size : Nat)
    (hfit : NUM_PAGES * page_size + STEP_SIZE ≤ SIZE_MOD)
    (hmap : ∀ a, a < NUM_PAGES * page_size → r.mapped a = true)
    (hfuel : NUM_PAGES * page_size / STEP_SIZE + 1 ≤ fuel) :
    ∃ r1, touch_and_verify_memory fuel r page_size = .done r1 ∧
      touch_and_verify_memory fuel r1 page_size = .done r1 := by
  refine ⟨_, touch_and_verify_memory_done fuel r page_size hfit hmap hfuel, ?_⟩
  rw [touch_and_verify_memory_done fuel (stamped (NUM_PAGES * page_size) 0 r) page_size hfit
    (fun a ha => hmap a ha) hfuel, stamped_idem]

/-- Witness of C6 at `page_size` = 2 MiB on a fully mapped region filled with 0xAA. -/
theorem touch_and_verify_memory_idempotent_witness :
    ∃ r1, touch_and_verify_memory 33 ⟨fun _ => 170, fun _ => true⟩ 2097152 = .done r1 ∧
      touch_and_verify_memory 33 r1 2097152 = .done r1 :=
  touch_and_verify_memory_idempotent 33 ⟨fun _ => 170, fun _ => true⟩ 2097152
    (by decide) (fun _ _ => rfl) (by decide)

/-! ## The release plan: specification properties -/

/-- C4: when the unit count `NUM_PAGES * (page_size / PMD_SIZE)` fits the `int`
that holds it (no machine arithmetic overflows), the release loop of
`partial_unmap_and_verify` returns normally after exactly that many `munmap`
calls, issued for the unit indices `0, 1, ...` in increasing order, the `i`-th
one on the range that starts at `i * PMD_SIZE + (i * STEP_SIZE) mod PMD_SIZE` and
has length `STEP_SIZE`; a completed `partial_unmap_and_verify` reports the same
calls. -/
theorem partial_unmap_release_calls (fuel : Nat) (r : Region) (page_size : Nat)
    (hsmall : NUM_PAGES * (page_size / PMD_SIZE) < 2 ^ 31)
    (hfuel : NUM_PAGES * (page_size / PMD_SIZE) ≤ fuel) :
    (∃ r1, unmap_loop (num_pmd_thps page_size) fuel 0 r []
        = .done (r1, (List.range (NUM_PAGES * (page_size / PMD_SIZE))).map
            fun i => (i * PMD_SIZE + (i * STEP_SIZE) % PMD_SIZE, STEP_SIZE))) ∧
      (∀ res, partial_unmap_and_verify fuel r page_size = .done res →
        res.released = (List.range (NUM_PAGES * (page_size / PMD_SIZE))).map
            fun i => (i * PMD_SIZE + (i * STEP_SIZE) % PMD_SIZE, STEP_SIZE)) ∧
      ((List.range (NUM_PAGES * (page_size / PMD_SIZE))).map
            fun i => (i * PMD_SIZE + (i * STEP_SIZE) % PMD_SIZE, STEP_SIZE)).length
        = NUM_PAGES * (page_size / PMD_SIZE) := by
  have hn := num_pmd_thps_eq page_size hsmall
  have hb : NUM_PAGES * (page_size / PMD_SIZE) < SIZE_MOD := by
    simp only [SIZE_MOD]
    omega
  have hP : NUM_PAGES * (page_size / PMD_SIZE) * PMD_SIZE ≤ SIZE_MOD := by
    have h1 : NUM_PAGES * (page_size / PMD_SIZE) * PMD_SIZE ≤ 2 ^ 31 * PMD_SIZE :=
      Nat.mul_le_mul_right _ (Nat.le_of_lt hsmall)
    have h2 : 2 ^ 31 * PMD_SIZE ≤ SIZE_MOD := by decide
    exact Nat.le_trans h1 h2
  have hloop := unmap_loop_done _ hb fuel 0 r [] (by omega)
  rw [Nat.sub_zero, List.nil_append, release_log_eq _ hP] at hloop
  refine ⟨⟨_, by rw [hn]; exact hloop⟩, ?_, by simp⟩
  intro res hres
  simp only [partial_unmap_and_verify, hn, hloop] at hres
  split at hres <;> first | (cases hres; rfl) | cases hres

/-- Witness of C4 at `page_size` = 2048 KiB: exactly four releases. -/
theorem partial_unmap_release_calls_witness :
    (∃ r1, unmap_loop (num_pmd_thps 2097152) 4 0 ⟨fun _ => 0, fun _ => true⟩ []
        = .done (r1, [(0, 262144), (2359296, 262144), (4718592, 262144), (7077888, 262144)])) ∧
      (∀ res, partial_unmap_and_verify 4 ⟨fun _ => 0, fun _ => true⟩ 2097152 = .done res →
        res.released = [(0, 262144), (2359296, 262144), (4718592, 262144), (7077888, 262144)]) ∧
      [(0, 262144), (2359296, 262144), (4718592, 262144), (7077888, 262144)].length = 4 :=
  partial_unmap_release_calls 4 ⟨fun _ => 0, fun _ => true⟩ 2097152 (by decide) (by decide)

/-- C8: for every page size whose region size `NUM_PAGES * page_size` is representable
in a `size_t`, and every unit index `i` below `NUM_PAGES * (page_size / PMD_SIZE)`, the
range released for unit `i` lies inside `[i * PMD_SIZE, (i + 1) * PMD_SIZE)`, which lies
inside the mapped region `[0, NUM_PAGES * page_size)`, and it is disjoint from the
range released for any other unit `j`. -/
theorem released_ranges_inside_units (page_size i : Nat)
    (hsize : NUM_PAGES * page_size < SIZE_MOD)
    (hi : i < NUM_PAGES * (page_size / PMD_SIZE)) :
    i * PMD_SIZE ≤ unmap_offset i ∧ unmap_offset i + STEP_SIZE ≤ (i + 1) * PMD_SIZE ∧
      (i + 1) * PMD_SIZE ≤ NUM_PAGES * page_size ∧
      ∀ j, j < NUM_PAGES * (page_size / PMD_SIZE) → j ≠ i →
        unmap_offset i + STEP_SIZE ≤ unmap_offset j ∨
          unmap_offset j + STEP_SIZE ≤ unmap_offset i := by
  have hin := units_inside page_size i hi
  have hbi := release_start_bounds i
  rw [unmap_offset_eq i (by omega)]
  refine ⟨hbi.1, hbi.2, hin, ?_⟩
  intro j hj hne
  have hjn := units_inside page_size j hj
  have hbj := release_start_bounds j
  rw [unmap_offset_eq j (by omega)]
  rcases Nat.lt_or_gt_of_ne hne with hlt | hgt
  · right
    have : (j + 1) * PMD_SIZE ≤ i * PMD_SIZE := Nat.mul_le_mul_right _ hlt
    omega
  · left
    have : (i + 1) * PMD_SIZE ≤ j * PMD_SIZE := Nat.mul_le_mul_right _ hgt
    omega

/-- Witness of C8 at `page_size` = 4 MiB (eight units), unit 5. -/
theorem released_ranges_inside_units_witness :
    5 * PMD_SIZE ≤ unmap_offset 5 ∧ unmap_offset 5 + STEP_SIZE ≤ (5 + 1) * PMD_SIZE ∧
      (5 + 1) * PMD_SIZE ≤ NUM_PAGES * 4194304 ∧
      ∀ j, j < NUM_PAGES * (4194304 / PMD_SIZE) → j ≠ 5 →
        unmap_offset 5 + STEP_SIZE ≤ unmap_offset j ∨
          unmap_offset j + STEP_SIZE ≤ unmap_offset 5 :=
  released_ranges_inside_units 4194304 5 (by decide) (by decide)

/-! ## main: specification properties -/

/-- C7 as stated fails: the page-size argument `12abc` is not a decimal numeral, no
second argument is given, and yet `main` does not exit early: it takes the page
size to be 12 kB, maps 49152 bytes, runs to the end and exits with status 0. -/
theorem main_accepts_unparsable_page_size :
    ¬ is_decimal_numeral "12abc" ∧
      main ⟨true, fun _ => true, 1⟩ ["map_unamp", "12abc"] = ⟨trace_12, .exited 0⟩ ∧
      Event.mmap 49152 ∈ trace_12 :=
  ⟨by decide, main_12abc ⟨true, fun _ => true, 1⟩ "map_unamp" rfl (le_refl _), by decide⟩

/-- C7 (amended): for every argument vector, when the page-size argument is missing,
or has no decimal digit where the conversion starts (after leading white space
and an optional sign) or only zeros there, or a second argument is present and
is not one of `always`, `madvise`, `inherit`, `never`, `main` exits with status 1
and no event at all (nothing written, nothing mapped); otherwise it runs
`main_body` with the converted page size and with the second argument as policy
mode (`always` when there is none), whose first events are the policy writes in
that mode followed by the `mmap` call; and when the page-size argument is a
plain decimal numeral below `2 ^ 64` the converted page size is its value. -/
theorem main_argument_validation (env : Env) (argv : List String) :
    (bad_arguments argv → main env argv = ⟨[], .exited 1⟩) ∧
    (¬ bad_arguments argv → ∃ arg1 rest,
      argv.get? 1 = some arg1 ∧
      main env argv = main_body env (strtoul10 arg1) ((argv.get? 2).getD "always") ∧
      (main env argv).trace
        = enable_hugepages_sizes (strtoul10 arg1) ((argv.get? 2).getD "always")
          ++ Event.mmap (sz (NUM_PAGES * sz (strtoul10 arg1 * 1024))) :: rest ∧
      (is_decimal_numeral arg1 → numeral_value arg1 < 2 ^ 64 →
        strtoul10 arg1 = numeral_value arg1)) := by
  match argv with
  | [] =>
    refine ⟨fun _ => rfl, fun h => absurd (Or.inl (by simp)) h⟩
  | [_] =>
    refine ⟨fun _ => rfl, fun h => absurd (Or.inl (by simp)) h⟩
  | [arg0, arg1] =>
    by_cases hz : strtoul10 arg1 = 0
    · refine ⟨fun _ => by simp only [main, hz, if_true], fun h => ?_⟩
      exact absurd (Or.inr (Or.inl ((strtoul10_eq_zero_iff arg1).mp hz))) h
    · have hm : main env [arg0, arg1] = main_body env (strtoul10 arg1) "always" := by
        simp only [main, hz, if_false]
      constructor
      · rintro (h | hd | ⟨hlen, _⟩)
        · simp at h
        · exact absurd ((strtoul10_eq_zero_iff arg1).mpr hd) hz
        · simp at hlen
      · intro _
        obtain ⟨rest, hrest⟩ := main_body_trace env (strtoul10 arg1) "always"
        exact ⟨arg1, rest, rfl, hm, by rw [hm]; exact hrest, strtoul10_numeral arg1⟩
  | arg0 :: arg1 :: input :: more =>
    by_cases hmode : is_policy_mode input
    · have hin := (allowed_iff input).mpr hmode
      have hany := (allowed_any input).mpr hin
      by_cases hz : strtoul10 arg1 = 0
      · refine ⟨fun _ => by simp only [main, hany, if_true, hz], fun h => ?_⟩
        exact absurd (Or.inr (Or.inl ((strtoul10_eq_zero_iff arg1).mp hz))) h
      · have hm : main env (arg0 :: arg1 :: input :: more)
            = main_body env (strtoul10 arg1) input := by
          simp only [main, hany, if_true, hz, if_false, strncpy_allowed input hin]
        constructor
        · rintro (h | hd | ⟨_, hni⟩)
          · simp only [List.length_cons] at h
            omega
          · exact absurd ((strtoul10_eq_zero_iff arg1).mpr hd) hz
          · exact absurd hmode hni
        · intro _
          obtain ⟨rest, hrest⟩ := main_body_trace env (strtoul10 arg1) input
          exact ⟨arg1, rest, rfl, hm, by rw [hm]; exact hrest, strtoul10_numeral arg1⟩
    · have hin : input ∉ allowed_values := fun h => hmode ((allowed_iff input).mp h)
      have hany : allowed_values.any (fun v => decide (input = v)) = false := by
        rw [Bool.eq_false_iff]
        exact fun h => hin ((allowed_any input).mp h)
      refine ⟨fun _ => by simp only [main, hany, Bool.false_eq_true, if_false], fun h => ?_⟩
      exact absurd (Or.inr (Or.inr ⟨by simp only [List.length_cons]; omega, hmode⟩)) h

/-- C10, evaluated at the argument vector `map_unamp 2048` on a kernel that grants the
mapping: the run succeeds with the trace `trace_2048`; the policy is written
for the class 2048 kB only and the first checkpoint reads the statistics of
that class only, while the three later checkpoints, which pass the page size
in bytes, read the statistics of all five classes. -/
theorem stats_classes_at_2048kB :
    main ⟨true, fun _ => true, 33⟩ ["map_unamp", "2048"] = ⟨trace_2048 "always", .exited 0⟩ ∧
      enable_hugepages_sizes 2048 "always" = [Event.write_to_file 2048 "always"] ∧
      read_and_dump_stats 2048 = stat_reads [2048] ∧
      read_and_dump_stats (sz (2048 * 1024)) = stat_reads [32768, 16384, 8192, 4096, 2048] ∧
      stat_reads [32768, 16384, 8192, 4096, 2048] ≠ stat_reads [2048] :=
  ⟨main_2048 ⟨true, fun _ => true, 33⟩ "map_unamp" rfl (fun _ => rfl) (le_refl _),
    by decide, by decide, by decide, by decide⟩

/-! ## Uniqueness of the stamped values -/

/-- C9, evaluated at the accepted page size 32768 kB: the offsets 0 and 67108864
= 256 * `STEP_SIZE` are two distinct sampled offsets of the region, and
`calculate_value` gives both the value 0. -/
theorem calculate_value_collision_at_32768kB :
    strtoul10 "32768" = 32768 ∧ sz (32768 * 1024) = 33554432 ∧
      67108864 = 256 * STEP_SIZE ∧ 67108864 < sz (NUM_PAGES * 33554432) ∧
      (0 : Nat) ≠ 67108864 ∧ calculate_value 0 = 0 ∧ calculate_value 67108864 = 0 := by
  decide

/-! ## The verification pass of partial_unmap_and_verify at 2048 KiB -/

/-- C3, evaluated at `page_size` = 2048 KiB on a fully mapped, correctly stamped
region: `partial_unmap_and_verify` returns normally after the four releases, but
the probe `msync(p + offset, page_size)` reports 25 of the 32 sampled offsets as
unmapped and only 7 are compared with the oracle; offset 524288 is reported
unmapped although it lies in no released range. -/
theorem partial_unmap_probe_at_2MiB :
    ∃ res, partial_unmap_and_verify 32 pattern_region 2097152 = .done res ∧
      res.released = [(0, 262144), (2359296, 262144), (4718592, 262144), (7077888, 262144)] ∧
      res.gone = [0, 524288, 786432, 1048576, 1310720, 1572864, 1835008, 2097152, 2359296,
          2883584, 3145728, 3407872, 3670016, 3932160, 4194304, 4456448, 4718592, 5242880,
          5505024, 5767168, 6029312, 6291456, 6553600, 6815744, 7077888] ∧
      res.compared = [262144, 2621440, 4980736, 7340032, 7602176, 7864320, 8126464] ∧
      res.gone.length = 25 ∧ res.compared.length = 7 ∧
      524288 ∈ res.gone ∧ in_released res.released 524288 = false := by
  refine ⟨_, partial_2MiB_done 32 (le_refl _) pattern_region (fun _ => rfl)
    (fun _ _ _ => rfl), ?_⟩
  simp only [release_log_2MiB, gone_2MiB, compared_2MiB]
  decide

/-- C2, evaluated at `page_size` = 2048 KiB on a fully mapped region whose byte at the
sampled offset 524288 = 2 * `STEP_SIZE` is wrong (255 instead of 2):
`partial_unmap_and_verify` returns normally, offset 524288 lies in no released
range and is still mapped, and it still holds the wrong byte. -/
theorem partial_unmap_misses_wrong_byte :
    ∃ res, partial_unmap_and_verify 32 corrupted_region 2097152 = .done res ∧
      524288 = 2 * STEP_SIZE ∧ 524288 < NUM_PAGES * 2097152 ∧
      in_released res.released 524288 = false ∧
      res.region.mapped 524288 = true ∧
      res.region.mem 524288 = 255 ∧ calculate_value 524288 = 2 := by
  refine ⟨_, partial_2MiB_done 32 (le_refl _) corrupted_region (fun _ => rfl) ?_, ?_⟩
  · intro m hm hs
    rw [msync_after_release 0 4 corrupted_region _ 2097152 (fun _ => rfl) (by decide)] at hs
    by_cases h2 : m = 2
    · subst h2
      exact absurd hs (by decide)
    · have hne : 0 + m * STEP_SIZE ≠ 524288 := by
        simp only [STEP_SIZE]
        omega
      simp only [corrupted_region, if_neg hne]
  · simp only [release_log_2MiB]
    decide

end MapUnmap
